import Mathlib

/-!
Verification of the Remote Job Client (`hpc_client_ssh.py`).

The Python client composes a handful of string-level operations on the
output of remote shell commands: stripping, whitespace splitting, digit
validation, line splitting, slash handling and sorting.  Every operation
below is a direct translation of the corresponding Python code; the
remote side (stdout/stderr of the invoked command) is passed in as
explicit string arguments.
-/

/-- Whitespace characters recognised by Python `str.strip` / `str.split`
    (ASCII subset: space, tab, newline, carriage return, vertical tab,
    form feed). -/
def isPyWs (c : Char) : Bool :=
  c == ' ' || c == '\t' || c == '\n' || c == '\r' || c == '\x0b' || c == '\x0c'

/-- Python `str.strip()` on a character list: drop whitespace from both
    ends. -/
def pyStripList (cs : List Char) : List Char :=
  ((cs.dropWhile isPyWs).reverse.dropWhile isPyWs).reverse

/-- Python `str.strip()`. -/
def pyStrip (s : String) : String :=
  ⟨pyStripList s.data⟩

/-- Worker for Python `str.split()` with no separator: split on runs of
    whitespace, discarding empty fields.  `acc` holds the current token
    reversed. -/
def splitWsAux : List Char → List Char → List (List Char)
  | [], acc => if acc.isEmpty then [] else [acc.reverse]
  | c :: rest, acc =>
    if isPyWs c then
      if acc.isEmpty then splitWsAux rest []
      else acc.reverse :: splitWsAux rest []
    else splitWsAux rest (c :: acc)

/-- Python `str.split()` (no separator argument). -/
def pySplit (s : String) : List String :=
  (splitWsAux s.data []).map fun cs => ⟨cs⟩

/-- Python `str.isdigit()` (restricted to ASCII digits): true iff the
    string is non-empty and every character is a decimal digit. -/
def pyIsDigit (s : String) : Bool :=
  !s.data.isEmpty && s.data.all Char.isDigit

/-- `HPCSSHClient._run`: executes a command, decodes and strips stdout and
    stderr, prints stderr when non-empty, and returns the stripped stdout
    only.  The two arguments are the raw remote stdout and stderr. -/
def pyRun (out _err : String) : String :=
  pyStrip out

/-- The informational `[stderr] ...` line printed by `_run` when the
    stripped stderr is non-empty; the stderr text is never part of the
    return value. -/
def pyRunStderrNote (err : String) : Option String :=
  if pyStrip err = "" then none else some ("[stderr] " ++ pyStrip err)

/-- `HPCSSHClient.job_status`: runs the squeue single-job state query and
    returns the stripped output when it is non-empty and the literal
    COMPLETED otherwise (Python string-or). -/
def job_status (out err : String) : String :=
  let state := pyRun out err
  if state = "" then ("COMPLETED") else state

/-- Result record of `submit_job` (`{"job_id": job_id}`). -/
structure SubmittedJob where
  job_id : String

/-- `HPCSSHClient.submit_job`: runs `sbatch --job-name=<name> <script>`,
    then validates the output: empty output raises `ValueError`, output
    with no whitespace tokens raises `ValueError`, and a last token that
    is not numeric raises `ValueError`; otherwise the last token is the
    job id.  `Except.error` models the raised `ValueError`. -/
def submit_job (out err : String) : Except String SubmittedJob :=
  let result := pyRun out err
  if result = "" then
    Except.error ("sbatch command returned empty result")
  else
    let parts := pySplit result
    if parts = [] then
      Except.error ("sbatch command returned unexpected format")
    else
      let job_id := parts.getLastD ("")
      if pyIsDigit job_id then Except.ok ⟨job_id⟩
      else Except.error ("Expected numeric job ID")

/-! ### Basic lemmas about the whitespace split and strip -/

theorem splitWsAux_allWs : ∀ cs, (∀ c ∈ cs, isPyWs c) → splitWsAux cs [] = [] := by
  intro cs h
  induction cs with
  | nil => rfl
  | cons c rest ih =>
    have hc : isPyWs c := h c (List.mem_cons_self _ _)
    simp only [splitWsAux, hc, if_pos, List.isEmpty_nil, if_true]
    exact ih fun x hx => h x (List.mem_cons_of_mem _ hx)

theorem splitWsAux_ne_nil_of_acc :
    ∀ cs acc, acc ≠ [] → splitWsAux cs acc ≠ [] := by
  intro cs
  induction cs with
  | nil =>
    intro acc hacc
    simp only [splitWsAux]
    have : acc.isEmpty = false := by
      cases acc with
      | nil => exact absurd rfl hacc
      | cons a t => rfl
    simp [this]
  | cons c rest ih =>
    intro acc hacc
    simp only [splitWsAux]
    by_cases hc : isPyWs c
    · have : acc.isEmpty = false := by
        cases acc with
        | nil => exact absurd rfl hacc
        | cons a t => rfl
      simp [hc, this]
    · simp only [hc, if_false, Bool.false_eq_true]
      exact ih (c :: acc) (List.cons_ne_nil _ _)

/-- Appending trailing whitespace never changes the whitespace split. -/
theorem splitWsAux_append_ws :
    ∀ cs acc ws, (∀ c ∈ ws, isPyWs c) →
      splitWsAux (cs ++ ws) acc = splitWsAux cs acc := by
  intro cs
  induction cs with
  | nil =>
    intro acc ws hws
    simp only [List.nil_append]
    induction ws generalizing acc with
    | nil => rfl
    | cons c rest ih =>
      have hc : isPyWs c := hws c (List.mem_cons_self _ _)
      have hrest : ∀ x ∈ rest, isPyWs x := fun x hx => hws x (List.mem_cons_of_mem _ hx)
      have hnil : splitWsAux rest [] = [] := splitWsAux_allWs rest hrest
      simp only [splitWsAux, hc, if_true]
      by_cases ha : acc.isEmpty
      · simp [ha, hnil]
      · simp [ha, hnil]
  | cons c rest ih =>
    intro acc ws hws
    simp only [List.cons_append, splitWsAux]
    by_cases hc : isPyWs c
    · by_cases ha : acc.isEmpty
      · simp [hc, ha, ih [] ws hws]
      · simp [hc, ha, ih [] ws hws]
    · simp [hc, ih (c :: acc) ws hws]

/-- Dropping leading whitespace never changes the whitespace split. -/
theorem splitWsAux_dropLeading :
    ∀ cs, splitWsAux (cs.dropWhile isPyWs) [] = splitWsAux cs [] := by
  intro cs
  induction cs with
  | nil => rfl
  | cons c rest ih =>
    by_cases hc : isPyWs c
    · rw [List.dropWhile_cons_of_pos hc]
      rw [ih]
      simp [splitWsAux, hc]
    · rw [List.dropWhile_cons_of_neg (by simpa using hc)]

/-- Decomposition of a list after leading-whitespace removal: it is the
    fully stripped list followed by an all-whitespace tail. -/
theorem dropWhile_eq_strip_append (cs : List Char) :
    cs.dropWhile isPyWs =
      pyStripList cs ++ ((cs.dropWhile isPyWs).reverse.takeWhile isPyWs).reverse := by
  unfold pyStripList
  rw [← List.reverse_append, List.takeWhile_append_dropWhile, List.reverse_reverse]

theorem takeWhile_reverse_allWs (cs : List Char) :
    ∀ c ∈ ((cs.dropWhile isPyWs).reverse.takeWhile isPyWs).reverse, isPyWs c := by
  intro c hc
  rw [List.mem_reverse] at hc
  exact List.mem_takeWhile_imp hc

/-- Stripping never changes the whitespace split. -/
theorem splitWsAux_strip (cs : List Char) :
    splitWsAux (pyStripList cs) [] = splitWsAux cs [] := by
  have h1 : splitWsAux (cs.dropWhile isPyWs) [] = splitWsAux (pyStripList cs) [] := by
    conv_lhs => rw [dropWhile_eq_strip_append cs]
    exact splitWsAux_append_ws _ _ _ (takeWhile_reverse_allWs cs)
  rw [← h1, splitWsAux_dropLeading]

/-- `pySplit` is invariant under `pyStrip`. -/
theorem pySplit_pyStrip (s : String) : pySplit (pyStrip s) = pySplit s := by
  unfold pySplit pyStrip
  rw [show (⟨pyStripList s.data⟩ : String).data = pyStripList s.data from rfl]
  rw [splitWsAux_strip]

/-- The strip of a list is empty iff the list is all whitespace. -/
theorem pyStripList_eq_nil_iff (cs : List Char) :
    pyStripList cs = [] ↔ ∀ c ∈ cs, isPyWs c := by
  constructor
  · intro h c hc
    have hdec := List.takeWhile_append_dropWhile (p := isPyWs) (l := cs)
    rw [← hdec] at hc
    rcases List.mem_append.mp hc with h1 | h1
    · exact List.mem_takeWhile_imp h1
    · rw [dropWhile_eq_strip_append cs, h, List.nil_append] at h1
      exact takeWhile_reverse_allWs cs c h1
  · intro h
    have : cs.dropWhile isPyWs = [] := List.dropWhile_eq_nil_iff.mpr h
    unfold pyStripList
    rw [this]
    rfl

theorem mkString_eq_empty_iff (l : List Char) : (⟨l⟩ : String) = "" ↔ l = [] := by
  constructor
  · intro h
    have := congrArg String.data h
    simpa using this
  · intro h
    subst h
    rfl

/-- A string strips to empty iff it is all whitespace. -/
theorem pyStrip_eq_empty_iff (s : String) :
    pyStrip s = "" ↔ ∀ c ∈ s.data, isPyWs c := by
  unfold pyStrip
  rw [mkString_eq_empty_iff]
  exact pyStripList_eq_nil_iff s.data

/-! ### Templated Slurm + Apptainer submission -/

/-- The parameters of `submit_apptainer_job` (the JobSpec of the spec). -/
structure JobSpec where
  image_path : String
  command : String
  job_name : String
  work_dir : String
  cpus : Nat
  mem : String
  gpus : Nat
  time : String
  output_log : String

/-- The fixed directive header of the rendered script, one `#SBATCH` line
    per resource, ending with the wall-time line. -/
def script_header (j : JobSpec) : String :=
  "#!/bin/bash\n" ++
  "#SBATCH --job-name=" ++ j.job_name ++ "\n" ++
  "#SBATCH --output=" ++ j.output_log ++ "\n" ++
  "#SBATCH --cpus-per-task=" ++ toString j.cpus ++ "\n" ++
  "#SBATCH --mem=" ++ j.mem ++ "\n" ++
  "#SBATCH --time=" ++ j.time ++ "\n"

/-- The conditional GPU directive line. -/
def gpu_line (g : Nat) : String :=
  "#SBATCH --gres=gpu:" ++ toString g ++ "\n"

/-- The body of the rendered script: change into the working directory
    and invoke the containerized command. -/
def script_body (j : JobSpec) : String :=
  "\ncd " ++ j.work_dir ++
  "\n\necho \"Running Apptainer job on $(hostname)\"\napptainer exec " ++
  j.image_path ++ " " ++ j.command ++
  "\n\necho \"Job completed at $(date)\"\n"

/-- The full script text built by `submit_apptainer_job`: header, then the
    GPU line exactly when `gpus > 0`, then the body. -/
def render_script (j : JobSpec) : String :=
  (if j.gpus > 0 then script_header j ++ gpu_line j.gpus else script_header j)
    ++ script_body j

/-- Successful result record of `submit_apptainer_job`
    (`{"job_id": ..., "remote_script": ...}`). -/
structure TemplatedSubmission where
  job_id : String
  remote_script : String

/-- Observable effects of one `submit_apptainer_job` call: the remote path
    the script is uploaded to, the uploaded script text, the submit
    command, and the outcome of the final job-id extraction
    (`result.strip().split()[-1]`, which raises `IndexError` on an output
    with no tokens and performs no numeric validation). -/
structure ApptainerRun where
  uploaded_path : String
  uploaded_content : String
  submit_command : String
  result : Except String TemplatedSubmission

/-- `HPCSSHClient.submit_apptainer_job` as a function of the job
    parameters and the stdout/stderr of the `sbatch` command. -/
def submit_apptainer_job (j : JobSpec) (out err : String) : ApptainerRun :=
  let remote_script := j.work_dir ++ "/" ++ j.job_name ++ ".sh"
  let result := pyRun out err
  let parts := pySplit (pyStrip result)
  ⟨remote_script,
   render_script j,
   "sbatch " ++ remote_script,
   if parts = [] then Except.error ("IndexError: list index out of range")
   else Except.ok ⟨parts.getLastD (""), remote_script⟩⟩

/-! ### Directory listing -/

/-- Python `str.rstrip` with argument `'/'`: drop trailing slashes. -/
def rstripSlash (s : String) : String :=
  ⟨(s.data.reverse.dropWhile fun c => c == '/').reverse⟩

/-- Worker for Python `str.split('/')`: split on every slash, keeping
    empty fields; the result is always non-empty. -/
def splitSlashAux : List Char → List Char → List (List Char)
  | [], acc => [acc.reverse]
  | c :: rest, acc =>
    if c == '/' then acc.reverse :: splitSlashAux rest []
    else splitSlashAux rest (c :: acc)

/-- Python `s.split('/')[-1]`. -/
def lastSlashSegment (s : String) : String :=
  ⟨(splitSlashAux s.data []).getLastD []⟩

/-- Worker for Python `str.splitlines()`: split on `\n`, `\r` and the
    pair `\r\n`, with no trailing empty line. -/
def splitlinesAux : List Char → List Char → List String
  | [], acc => if acc.isEmpty then [] else [⟨acc.reverse⟩]
  | '\r' :: '\n' :: rest, acc => ⟨acc.reverse⟩ :: splitlinesAux rest []
  | c :: rest, acc =>
    if c == '\n' || c == '\r' then ⟨acc.reverse⟩ :: splitlinesAux rest []
    else splitlinesAux rest (c :: acc)

/-- Python `str.splitlines()`. -/
def pySplitlines (s : String) : List String :=
  splitlinesAux s.data []

/-- Code-point lexicographic comparison on character lists, the order
    Python uses to compare strings. -/
def listCharLe : List Char → List Char → Bool
  | [], _ => true
  | _ :: _, [] => false
  | a :: as, b :: bs =>
    if a < b then true
    else if b < a then false
    else listCharLe as bs

/-- Python string comparison `a <= b`. -/
def pyStrLe (a b : String) : Bool :=
  listCharLe a.data b.data

/-- Python `sorted` on strings (code-point lexicographic order; equal
    strings are identical, so stability is immaterial). -/
def pySorted (l : List String) : List String :=
  List.insertionSort (fun a b => pyStrLe a b) l

/-- `HPCSSHClient.list_project_directories`: runs `ls -d <base>/*/`,
    returns `[]` on empty output, and otherwise the sorted list of
    `d.strip().rstrip('/').split('/')[-1]` over the non-blank output
    lines. -/
def list_project_directories (out err : String) : List String :=
  let result := pyRun out err
  if result = "" then []
  else
    pySorted ((pySplitlines result).filterMap fun d =>
      if pyStrip d = "" then none
      else some (lastSlashSegment (rstripSlash (pyStrip d))))

/-! ### Substring search (used to state the GPU-directive property) -/

/-- `startsWithList n h`: the character list `h` begins with `n`. -/
def startsWithList : List Char → List Char → Bool
  | [], _ => true
  | _ :: _, [] => false
  | a :: as, b :: bs => a == b && startsWithList as bs

/-- `hasSubList n h`: the character list `n` occurs contiguously in `h`. -/
def hasSubList (n : List Char) : List Char → Bool
  | [] => startsWithList n []
  | c :: rest => startsWithList n (c :: rest) || hasSubList n rest

/-- Substring occurrence on strings. -/
def strHasSub (n h : String) : Bool :=
  hasSubList n.data h.data


/-! ### The computable comparison agrees with the lexicographic order -/

theorem listCharLe_iff : ∀ a b : List Char, listCharLe a b = true ↔ a ≤ b := by
  intro a
  induction a with
  | nil =>
    intro b
    rw [← not_lt]
    simp only [listCharLe]
    constructor
    · intro _ h
      cases h
    · intro _
      trivial
  | cons x xs ih =>
    intro b
    rw [← not_lt]
    cases b with
    | nil =>
      show (false = true) ↔ ¬ ([] < x :: xs)
      constructor
      · intro h
        cases h
      · intro h
        exact absurd (List.nil_lt_cons x xs) h
    | cons y ys =>
      by_cases hxy : x < y
      · simp only [listCharLe, if_pos hxy]
        constructor
        · intro _ h
          have h' : List.Lex (· < ·) (y :: ys) (x :: xs) := h
          cases h' with
          | cons h3 => exact lt_irrefl x (by exact hxy)
          | rel hyx => exact absurd hyx (lt_asymm hxy)
        · intro _
          trivial
      · by_cases hyx : y < x
        · simp only [listCharLe, if_neg hxy, if_pos hyx]
          constructor
          · intro h
            cases h
          · intro h
            exact absurd (List.Lex.rel hyx) h
        · have hxe : x = y := le_antisymm (le_of_not_lt hyx) (le_of_not_lt hxy)
          subst hxe
          simp only [listCharLe, if_neg hxy, if_neg hyx]
          rw [ih ys, ← not_lt]
          constructor
          · intro h hlt
            have h' : List.Lex (· < ·) (x :: ys) (x :: xs) := hlt
            cases h' with
            | cons h3 => exact h h3
            | rel hyx2 => exact hyx hyx2
          · intro h hlt
            exact h (List.Lex.cons hlt)

theorem pyStrLe_iff (a b : String) : pyStrLe a b = true ↔ a ≤ b := by
  rw [String.le_iff_toList_le]
  exact listCharLe_iff a.data b.data

theorem pyStrLe_total (a b : String) : pyStrLe a b = true ∨ pyStrLe b a = true := by
  rcases le_total a b with h | h
  · exact Or.inl ((pyStrLe_iff a b).mpr h)
  · exact Or.inr ((pyStrLe_iff b a).mpr h)

theorem pyStrLe_trans {a b c : String}
    (h1 : pyStrLe a b = true) (h2 : pyStrLe b c = true) : pyStrLe a c = true :=
  (pyStrLe_iff a c).mpr (le_trans ((pyStrLe_iff a b).mp h1) ((pyStrLe_iff b c).mp h2))

instance : IsTotal String (fun a b => pyStrLe a b = true) :=
  ⟨pyStrLe_total⟩

instance : IsTrans String (fun a b => pyStrLe a b = true) :=
  ⟨fun _ _ _ => pyStrLe_trans⟩

/-- The sort used by `list_project_directories` produces a list that is
    sorted ascending for the standard order on strings. -/
theorem pySorted_sorted (l : List String) : List.Sorted (· ≤ ·) (pySorted l) := by
  have h := List.sorted_insertionSort (fun a b => pyStrLe a b = true) l
  exact List.Pairwise.imp (fun hab => (pyStrLe_iff _ _).mp hab) h

theorem mem_pySorted {l : List String} {x : String} : x ∈ pySorted l ↔ x ∈ l :=
  List.mem_insertionSort (fun a b => pyStrLe a b = true)

theorem pySorted_eq_nil_iff {l : List String} : pySorted l = [] ↔ l = [] := by
  constructor
  · intro h
    have hp := List.perm_insertionSort (fun a b => pyStrLe a b = true) l
    rw [show List.insertionSort (fun a b => pyStrLe a b = true) l = pySorted l from rfl, h] at hp
    exact hp.symm.eq_nil
  · intro h
    rw [h]
    rfl

/-! ### Helper lemmas for submission parsing -/

theorem pySplit_empty : pySplit ("") = [] := rfl

theorem pyStrip_ne_empty_of_getLast {out t : String}
    (h : (pySplit out).getLast? = some t) : pyStrip out ≠ "" := by
  intro he
  have hs := pySplit_pyStrip out
  rw [he] at hs
  rw [← hs] at h
  simp [pySplit_empty] at h

theorem getLast_ne_nil {l : List String} {t : String}
    (h : l.getLast? = some t) : l ≠ [] := by
  intro hl
  rw [hl] at h
  simp at h

theorem getLastD_of_getLast {l : List String} {t : String}
    (h : l.getLast? = some t) : l.getLastD ("") = t := by
  rw [List.getLastD_eq_getLast?, h]
  rfl

theorem pyIsDigit_eq_false_of_mem {t : String} {c : Char}
    (hc : c ∈ t.data) (hd : c.isDigit = false) : pyIsDigit t = false := by
  unfold pyIsDigit
  by_contra hne
  have ht : (!t.data.isEmpty && t.data.all Char.isDigit) = true := by
    cases hh : (!t.data.isEmpty && t.data.all Char.isDigit) with
    | true => rfl
    | false => exact absurd hh hne
  have hall := (Bool.and_eq_true _ _).mp ht
  have := List.all_eq_true.mp hall.2 c hc
  rw [hd] at this
  cases this

/-- Claim C1: for every connection (stderr text) and command output
    string, `submit_job` fails (raises `ValueError`, the SubmissionError
    of the spec) when the output is entirely empty, when it has no
    whitespace-separated tokens, or when its last whitespace-separated
    token contains a non-digit character. -/
theorem submit_job_rejects_invalid (out err : String)
    (h : out = "" ∨ pySplit out = [] ∨
      ∃ t, (pySplit out).getLast? = some t ∧ ∃ c ∈ t.data, c.isDigit = false) :
    ∃ e, submit_job out err = Except.error e := by
  rcases h with h1 | h2 | ⟨t, hlast, c, hcmem, hcd⟩
  · subst h1
    exact ⟨"sbatch command returned empty result", rfl⟩
  · by_cases hres : pyStrip out = ""
    · refine ⟨"sbatch command returned empty result", ?_⟩
      simp [submit_job, pyRun, hres]
    · have hsp : pySplit (pyStrip out) = [] := by
        rw [pySplit_pyStrip]
        exact h2
      refine ⟨"sbatch command returned unexpected format", ?_⟩
      simp [submit_job, pyRun, hres, hsp]
  · have hres : pyStrip out ≠ "" := pyStrip_ne_empty_of_getLast hlast
    have hsp : pySplit (pyStrip out) = pySplit out := pySplit_pyStrip out
    have hne : pySplit out ≠ [] := getLast_ne_nil hlast
    have hlastD : (pySplit out).getLastD ("") = t := getLastD_of_getLast hlast
    have hdig : pyIsDigit t = false := pyIsDigit_eq_false_of_mem hcmem hcd
    refine ⟨"Expected numeric job ID", ?_⟩
    simp [submit_job, pyRun, hres, hsp, hne, hlast, hlastD, hdig]

/-- Witness for C1: the scenario output whose last token is
    `partition`. -/
theorem submit_job_rejects_invalid_witness :
    ∃ e, submit_job ("sbatch: error: invalid partition") "" = Except.error e :=
  submit_job_rejects_invalid ("sbatch: error: invalid partition") ""
    (Or.inr (Or.inr ⟨"partition", by decide, 'p', by decide, by decide⟩))

/-- Claim C2: for every command output whose last whitespace-separated
    token is a non-empty all-digit string, `submit_job` succeeds and
    returns that token as the job id. -/
theorem submit_job_accepts_digit (out err t : String)
    (hlast : (pySplit out).getLast? = some t) (hdig : pyIsDigit t = true) :
    submit_job out err = Except.ok ⟨t⟩ := by
  have hres : pyStrip out ≠ "" := pyStrip_ne_empty_of_getLast hlast
  have hsp : pySplit (pyStrip out) = pySplit out := pySplit_pyStrip out
  have hne : pySplit out ≠ [] := getLast_ne_nil hlast
  have hlastD : (pySplit out).getLastD ("") = t := getLastD_of_getLast hlast
  simp [submit_job, pyRun, hres, hsp, hne, hlast, hlastD, hdig]

/-- Witness for C2: the scenario output `Submitted batch job 88210`
    yields job id `88210`. -/
theorem submit_job_accepts_digit_witness :
    (pySplit ("Submitted batch job 88210")).getLast? = some ("88210") ∧
      submit_job ("Submitted batch job 88210") "" = Except.ok ⟨"88210"⟩ :=
  ⟨by decide,
   submit_job_accepts_digit ("Submitted batch job 88210") "" "88210" (by decide) (by decide)⟩

/-- Claim C5: `job_status` returns COMPLETED exactly when the stripped
    scheduler output is empty, and otherwise returns the stripped
    scheduler state verbatim. -/
theorem job_status_spec (out err : String) :
    (pyStrip out = "" → job_status out err = "COMPLETED") ∧
    (pyStrip out ≠ "" → job_status out err = pyStrip out) := by
  constructor
  · intro h
    simp [job_status, pyRun, h]
  · intro h
    simp [job_status, pyRun, h]

/-- Witness for C5: empty output reads COMPLETED; a RUNNING line is
    returned as its stripped state token. -/
theorem job_status_spec_witness :
    job_status ("") ("") = "COMPLETED" ∧ job_status (" RUNNING\n") "" = pyStrip (" RUNNING\n") :=
  ⟨(job_status_spec ("") ("")).1 rfl, (job_status_spec (" RUNNING\n") "").2 (by decide)⟩

/-- Counterexample for C9 as stated: the value returned by `_run` is the
    stripped stdout and is independent of stderr, so no reading of the
    return value can recover the captured stderr text. -/
theorem run_does_not_return_stderr :
    pyRun ("out line") ("err line") = "out line" ∧
    ¬ ∃ g : String → String, ∀ out err, g (pyRun out err) = pyStrip err := by
  constructor
  · rfl
  · rintro ⟨g, hg⟩
    have h1 := hg ("") ("x")
    have h2 := hg ("") ("y")
    have h3 : pyStrip ("x") = pyStrip ("y") := by
      rw [show pyRun ("") ("x") = pyRun ("") ("y") from rfl] at h1
      exact h1.symm.trans h2
    rw [show pyStrip ("x") = "x" from rfl, show pyStrip ("y") = "y" from rfl] at h3
    exact absurd h3 (by decide)

/-- Claim C9 amended: `_run` returns only the captured stdout, decoded
    and stripped of surrounding whitespace; stderr is decoded, stripped
    and printed as an informational note, not returned, and a non-empty
    stderr never makes the call fail. -/
theorem run_returns_stripped_stdout (out err : String) :
    pyRun out err = pyStrip out ∧
    (∀ err2, pyRun out err = pyRun out err2) ∧
    pyRunStderrNote err =
      (if pyStrip err = "" then none else some ("[stderr] " ++ pyStrip err)) :=
  ⟨rfl, fun _ => rfl, rfl⟩

/-- Counterexample for C8 as stated: a nonexistent path (empty listing
    output, diagnostic on stderr) yields the empty list, not a
    NotFoundError. -/
theorem list_dirs_nonexistent_counterexample :
    list_project_directories ("")
      ("ls: cannot access /nonexistent: No such file or directory") = [] := rfl

/-- Claim C8 amended: on a nonexistent path, i.e. a listing command whose
    stdout strips to empty, `list_project_directories` silently returns
    the empty list; no error of any kind is raised. -/
theorem list_dirs_empty_on_empty_output (out err : String) (h : pyStrip out = "") :
    list_project_directories out err = [] := by
  simp [list_project_directories, pyRun, h]

/-- Witness for amended C8. -/
theorem list_dirs_empty_on_empty_output_witness :
    list_project_directories ("") ("ls: No such file or directory") = [] :=
  list_dirs_empty_on_empty_output ("") ("ls: No such file or directory") rfl

/-! ### Claims about the templated submission -/

theorem getLast?_eq_some_getLastD {l : List String} (h : l ≠ []) :
    l.getLast? = some (l.getLastD ("")) := by
  cases hl : l.getLast? with
  | none =>
    exact absurd (List.getLast?_eq_none_iff.mp hl) h
  | some x =>
    rw [List.getLastD_eq_getLast?, hl]
    rfl

/-- A concrete job specification used as witness input (the hello-world
    scenario of the spec, no GPUs). -/
def sampleSpec : JobSpec :=
  ⟨"/containers/fetal.sif", "echo hi", "hello_world", "/home/u", 4, "16G", 0,
   "04:00:00", "slurm-%j.out"⟩

/-- A second, field-for-field identical copy of `sampleSpec`. -/
def sampleSpecB : JobSpec :=
  ⟨"/containers/fetal.sif", "echo hi", "hello_world", "/home/u", 4, "16G", 0,
   "04:00:00", "slurm-%j.out"⟩

/-- The same job but requesting one GPU. -/
def gpuSpec : JobSpec :=
  ⟨"/containers/fetal.sif", "echo hi", "hello_world", "/home/u", 4, "16G", 1,
   "04:00:00", "slurm-%j.out"⟩

/-- A job whose name smuggles a GPU directive into the script text even
    though `gpus = 0`. -/
def injSpec : JobSpec :=
  ⟨"/containers/fetal.sif", "echo hi", "x\n#SBATCH --gres=gpu:1", "/home/u", 4,
   "16G", 0, "04:00:00", "slurm-%j.out"⟩

/-- Claim C3: `submit_apptainer_job` uploads the rendered script to
    `{work_dir}/{job_name}.sh`, submits that exact path with `sbatch`,
    and on success returns the last whitespace token of the submit
    output as job id together with the uploaded remote path. -/
theorem submit_apptainer_pipeline (j : JobSpec) (out err : String) :
    (submit_apptainer_job j out err).uploaded_path =
      j.work_dir ++ "/" ++ j.job_name ++ ".sh" ∧
    (submit_apptainer_job j out err).uploaded_content = render_script j ∧
    (submit_apptainer_job j out err).submit_command =
      "sbatch " ++ (submit_apptainer_job j out err).uploaded_path ∧
    ∀ r, (submit_apptainer_job j out err).result = Except.ok r →
      r.remote_script = (submit_apptainer_job j out err).uploaded_path ∧
      (pySplit out).getLast? = some r.job_id := by
  refine ⟨rfl, rfl, rfl, ?_⟩
  intro r hr
  have hr' :
      (if pySplit (pyStrip (pyStrip out)) = [] then
        (Except.error ("IndexError: list index out of range") :
          Except String TemplatedSubmission)
      else
        Except.ok ⟨(pySplit (pyStrip (pyStrip out))).getLastD (""),
          j.work_dir ++ "/" ++ j.job_name ++ ".sh"⟩) = Except.ok r := hr
  rw [pySplit_pyStrip, pySplit_pyStrip] at hr'
  by_cases hne : pySplit out = []
  · rw [if_pos hne] at hr'
    exact absurd hr' (by simp)
  · rw [if_neg hne] at hr'
    injection hr' with hh
    subst hh
    exact ⟨rfl, getLast?_eq_some_getLastD hne⟩

/-- Witness for C3 at the hello-world spec and the scenario output. -/
theorem submit_apptainer_pipeline_witness :
    (submit_apptainer_job sampleSpec ("Submitted batch job 88210") "").uploaded_path =
      "/home/u" ++ "/" ++ "hello_world" ++ ".sh" ∧
    (pySplit ("Submitted batch job 88210")).getLast? = some ("88210") := by
  have h := submit_apptainer_pipeline sampleSpec ("Submitted batch job 88210") ""
  refine ⟨h.1, ?_⟩
  exact (h.2.2.2 ⟨"88210", "/home/u/hello_world.sh"⟩ rfl).2

/-- Counterexample for C4 as stated: a submit output whose last token is
    the non-numeric `partition` is returned as a successful job id by
    `submit_apptainer_job`; no submission failure is raised. -/
theorem submit_apptainer_accepts_nonnumeric :
    (submit_apptainer_job sampleSpec ("sbatch: error: invalid partition") "").result =
      Except.ok ⟨"partition", "/home/u/hello_world.sh"⟩ ∧
    pyIsDigit ("partition") = false :=
  ⟨rfl, rfl⟩

/-- Claim C4 amended: `submit_apptainer_job` performs no validation of
    the job id: any output with at least one whitespace token succeeds
    with the last token, numeric or not, and output with no tokens fails
    with an unhandled IndexError rather than a SubmissionError. -/
theorem submit_apptainer_no_validation (j : JobSpec) (out err : String) :
    (pySplit out = [] →
      (submit_apptainer_job j out err).result =
        Except.error ("IndexError: list index out of range")) ∧
    (∀ t, (pySplit out).getLast? = some t →
      (submit_apptainer_job j out err).result =
        Except.ok ⟨t, j.work_dir ++ "/" ++ j.job_name ++ ".sh"⟩) := by
  have hres :
      (submit_apptainer_job j out err).result =
      (if pySplit (pyStrip (pyStrip out)) = [] then
        (Except.error ("IndexError: list index out of range") :
          Except String TemplatedSubmission)
      else
        Except.ok ⟨(pySplit (pyStrip (pyStrip out))).getLastD (""),
          j.work_dir ++ "/" ++ j.job_name ++ ".sh"⟩) := rfl
  rw [hres, pySplit_pyStrip, pySplit_pyStrip]
  constructor
  · intro h
    rw [if_pos h]
  · intro t ht
    rw [if_neg (getLast_ne_nil ht), getLastD_of_getLast ht]

/-- Witness for amended C4: empty output hits the IndexError; the
    partition output is accepted verbatim. -/
theorem submit_apptainer_no_validation_witness :
    (submit_apptainer_job sampleSpec ("") ("")).result =
      Except.error ("IndexError: list index out of range") ∧
    (submit_apptainer_job sampleSpec ("sbatch: error: invalid partition") "").result =
      Except.ok ⟨"partition", "/home/u" ++ "/" ++ "hello_world" ++ ".sh"⟩ :=
  ⟨(submit_apptainer_no_validation sampleSpec ("") ("")).1 rfl,
   (submit_apptainer_no_validation sampleSpec ("sbatch: error: invalid partition") "").2
     "partition" (by decide)⟩

/-- Claim C7: script rendering is pure and deterministic: two JobSpecs
    that agree on every field render byte-identical script text. -/
theorem render_script_deterministic (j1 j2 : JobSpec)
    (h1 : j1.image_path = j2.image_path) (h2 : j1.command = j2.command)
    (h3 : j1.job_name = j2.job_name) (h4 : j1.work_dir = j2.work_dir)
    (h5 : j1.cpus = j2.cpus) (h6 : j1.mem = j2.mem) (h7 : j1.gpus = j2.gpus)
    (h8 : j1.time = j2.time) (h9 : j1.output_log = j2.output_log) :
    render_script j1 = render_script j2 := by
  have hj : j1 = j2 := by
    cases j1
    cases j2
    simp_all
  rw [hj]

/-- Witness for C7: two separately written but equal specs render the
    same bytes. -/
theorem render_script_deterministic_witness :
    render_script sampleSpec = render_script sampleSpecB :=
  render_script_deterministic sampleSpec sampleSpecB rfl rfl rfl rfl rfl rfl rfl rfl rfl

/-! ### Substring lemmas and the GPU directive claim -/

theorem strExt {a b : String} (h : a.data = b.data) : a = b := by
  cases a
  cases b
  cases h
  rfl

theorem strData_append (a b : String) : (a ++ b).data = a.data ++ b.data := by
  cases a
  cases b
  rfl

theorem startsWithList_self_append : ∀ n t : List Char, startsWithList n (n ++ t) = true := by
  intro n
  induction n with
  | nil => intro t; rfl
  | cons a as ih =>
    intro t
    simp [startsWithList, ih t]

theorem hasSubList_cons {n h0 : List Char} (c : Char) (h : hasSubList n h0 = true) :
    hasSubList n (c :: h0) = true := by
  simp [hasSubList, h]

theorem hasSubList_append_left :
    ∀ (a : List Char) {n h0 : List Char}, hasSubList n h0 = true →
      hasSubList n (a ++ h0) = true := by
  intro a
  induction a with
  | nil => intro n h0 h; exact h
  | cons c a2 ih =>
    intro n h0 h
    exact hasSubList_cons c (ih h)

theorem hasSubList_self_append (n t : List Char) : hasSubList n (n ++ t) = true := by
  cases n with
  | nil =>
    cases t with
    | nil => rfl
    | cons c rest => simp [hasSubList, startsWithList]
  | cons a as =>
    show hasSubList (a :: as) (a :: (as ++ t)) = true
    simp [hasSubList, startsWithList, startsWithList_self_append]

set_option maxRecDepth 100000 in
/-- Counterexample for C6 as stated: `injSpec` has `gpus = 0`, yet its
    rendered script text contains the GPU resource directive, because the
    job name is interpolated verbatim into the header. -/
theorem render_gpu_injection_counterexample :
    injSpec.gpus = 0 ∧
    strHasSub ("#SBATCH --gres=gpu:1") (render_script injSpec) = true :=
  ⟨rfl, by decide⟩

/-- Claim C6 amended: the renderer appends the GPU directive line, in the
    fixed position between the wall-time directive and the body, exactly
    when `gpus > 0`; and provided the interpolated fields do not
    themselves contain GPU-directive text, the rendered script contains
    the directive text iff `gpus > 0`. -/
theorem render_gpu_directive (j : JobSpec) :
    (j.gpus > 0 → render_script j = script_header j ++ gpu_line j.gpus ++ script_body j) ∧
    (j.gpus = 0 → render_script j = script_header j ++ script_body j) ∧
    (∃ pre, script_header j = pre ++ ("#SBATCH --time=" ++ j.time ++ "\n")) ∧
    (strHasSub ("#SBATCH --gres=gpu:") (script_header j ++ script_body j) = false →
      (strHasSub ("#SBATCH --gres=gpu:") (render_script j) = true ↔ j.gpus > 0)) := by
  refine ⟨?_, ?_, ?_, ?_⟩
  · intro h
    unfold render_script
    rw [if_pos h]
  · intro h
    simp [render_script, h]
  · refine ⟨"#!/bin/bash\n" ++ "#SBATCH --job-name=" ++ j.job_name ++ "\n" ++
      "#SBATCH --output=" ++ j.output_log ++ "\n" ++
      "#SBATCH --cpus-per-task=" ++ toString j.cpus ++ "\n" ++
      "#SBATCH --mem=" ++ j.mem ++ "\n", ?_⟩
    apply strExt
    simp [script_header, strData_append, List.append_assoc]
  · intro hno
    constructor
    · intro htrue
      by_contra hng
      have h0 : j.gpus = 0 := Nat.eq_zero_of_not_pos hng
      have heq : render_script j = script_header j ++ script_body j := by
        simp [render_script, h0]
      rw [heq, hno] at htrue
      cases htrue
    · intro hpos
      have heq : render_script j = (script_header j ++ gpu_line j.gpus) ++ script_body j := by
        unfold render_script
        rw [if_pos hpos]
      rw [heq]
      show hasSubList ("#SBATCH --gres=gpu:").data
        (((script_header j ++ gpu_line j.gpus) ++ script_body j)).data = true
      have hdata :
          (((script_header j ++ gpu_line j.gpus) ++ script_body j)).data =
          (script_header j).data ++
            (("#SBATCH --gres=gpu:").data ++
              ((toString j.gpus).data ++ (("\n").data ++ (script_body j).data))) := by
        simp [strData_append, gpu_line, List.append_assoc]
      rw [hdata]
      exact hasSubList_append_left _ (hasSubList_self_append _ _)

set_option maxRecDepth 100000 in
/-- Witness for amended C6: with no GPUs the sample renders without the
    directive; with one GPU the directive is appended and present. -/
theorem render_gpu_directive_witness :
    render_script sampleSpec = script_header sampleSpec ++ script_body sampleSpec ∧
    render_script gpuSpec = script_header gpuSpec ++ gpu_line gpuSpec.gpus ++ script_body gpuSpec ∧
    strHasSub ("#SBATCH --gres=gpu:") (render_script gpuSpec) = true ∧
    strHasSub ("#SBATCH --gres=gpu:") (render_script sampleSpec) = false := by
  refine ⟨(render_gpu_directive sampleSpec).2.1 rfl,
          (render_gpu_directive gpuSpec).1 (by decide),
          ((render_gpu_directive gpuSpec).2.2.2 (by decide)).mpr (by decide),
          ?_⟩
  have h := (render_gpu_directive sampleSpec).2.2.2 (by decide)
  cases hb : strHasSub ("#SBATCH --gres=gpu:") (render_script sampleSpec) with
  | false => rfl
  | true => exact absurd (h.mp hb) (by decide)

/-! ### Lemmas for the directory-listing claim -/

theorem splitSlashAux_ne_nil : ∀ cs acc, splitSlashAux cs acc ≠ [] := by
  intro cs
  induction cs with
  | nil =>
    intro acc
    simp [splitSlashAux]
  | cons c rest ih =>
    intro acc
    by_cases hc : c == '/'
    · simp [splitSlashAux, hc]
    · simp only [splitSlashAux, hc, Bool.false_eq_true, if_false]
      exact ih (c :: acc)

theorem splitSlashAux_no_slash :
    ∀ cs acc, (∀ c ∈ acc, c ≠ '/') →
      ∀ seg ∈ splitSlashAux cs acc, ∀ c ∈ seg, c ≠ '/' := by
  intro cs
  induction cs with
  | nil =>
    intro acc hacc seg hseg c hc
    simp [splitSlashAux] at hseg
    subst hseg
    exact hacc c (List.mem_reverse.mp hc)
  | cons x rest ih =>
    intro acc hacc seg hseg c hc
    by_cases hx : x == '/'
    · rw [show splitSlashAux (x :: rest) acc = acc.reverse :: splitSlashAux rest [] by
        simp [splitSlashAux, hx]] at hseg
      rcases List.mem_cons.mp hseg with rfl | h2
      · exact hacc c (List.mem_reverse.mp hc)
      · exact ih [] (by intro y hy; cases hy) seg h2 c hc
    · rw [show splitSlashAux (x :: rest) acc = splitSlashAux rest (x :: acc) by
        simp [splitSlashAux, hx]] at hseg
      refine ih (x :: acc) ?_ seg hseg c hc
      intro y hy
      rcases List.mem_cons.mp hy with rfl | h2
      · intro hcon
        rw [hcon] at hx
        exact hx rfl
      · exact hacc y h2

theorem getLastD_mem {α : Type} : ∀ (l : List α) (d : α), l ≠ [] → l.getLastD d ∈ l := by
  intro l d h
  cases l with
  | nil => exact absurd rfl h
  | cons x xs =>
    rw [List.getLastD_cons]
    exact List.getLastD_mem_cons xs x

/-- The last slash-separated segment of a string contains no slash. -/
theorem lastSlashSegment_no_slash (s : String) :
    ∀ c ∈ (lastSlashSegment s).data, c ≠ '/' := by
  intro c hc
  have hmem : (splitSlashAux s.data []).getLastD [] ∈ splitSlashAux s.data [] :=
    getLastD_mem _ _ (splitSlashAux_ne_nil s.data [])
  exact splitSlashAux_no_slash s.data [] (by intro x hx; cases hx) _ hmem c hc

theorem dropWhile_head_not :
    ∀ (l : List Char) {a : Char} {t : List Char},
      l.dropWhile isPyWs = a :: t → isPyWs a = false := by
  intro l
  induction l with
  | nil =>
    intro a t h
    simp at h
  | cons c rest ih =>
    intro a t h
    by_cases hc : isPyWs c
    · rw [List.dropWhile_cons_of_pos hc] at h
      exact ih h
    · rw [List.dropWhile_cons_of_neg hc] at h
      injection h with h1 h2
      subst h1
      simpa using hc

/-- A non-empty stripped string contains a non-whitespace character. -/
theorem exists_nonws_of_strip_ne_empty {s : String} (h : pyStrip s ≠ "") :
    ∃ c ∈ (pyStrip s).data, isPyWs c = false := by
  cases hd : (s.data.dropWhile isPyWs).reverse.dropWhile isPyWs with
  | nil =>
    exfalso
    apply h
    show (⟨pyStripList s.data⟩ : String) = ""
    unfold pyStripList
    rw [hd]
    rfl
  | cons a t =>
    have ha : isPyWs a = false := dropWhile_head_not _ hd
    refine ⟨a, ?_, ha⟩
    show a ∈ pyStripList s.data
    unfold pyStripList
    rw [hd]
    exact List.mem_reverse.mpr (List.mem_cons_self a t)

/-- Every line list produced by `splitlinesAux` from input holding a
    non-whitespace character holds a line with a non-whitespace
    character. -/
theorem splitlinesAux_exists_nonws :
    ∀ cs acc, ((∃ c ∈ cs, isPyWs c = false) ∨ (∃ c ∈ acc, isPyWs c = false)) →
      ∃ l ∈ splitlinesAux cs acc, ∃ c ∈ l.data, isPyWs c = false := by
  intro cs acc
  induction cs, acc using splitlinesAux.induct with
  | case1 acc hacc =>
    intro h
    rcases h with ⟨c, hc, _⟩ | ⟨c, hc, _⟩
    · cases hc
    · cases acc with
      | nil => cases hc
      | cons a t => simp at hacc
  | case2 acc hacc =>
    intro h
    have hred : splitlinesAux [] acc = [⟨acc.reverse⟩] := by
      simp [splitlinesAux, hacc]
    rw [hred]
    rcases h with ⟨c, hc, _⟩ | ⟨c, hc, hcw⟩
    · cases hc
    · exact ⟨⟨acc.reverse⟩, List.mem_singleton.mpr rfl, c,
        List.mem_reverse.mpr hc, hcw⟩
  | case3 rest acc ih =>
    intro h
    have hred : splitlinesAux ('\r' :: '\n' :: rest) acc =
        ⟨acc.reverse⟩ :: splitlinesAux rest [] := rfl
    rw [hred]
    rcases h with ⟨c, hc, hcw⟩ | ⟨c, hc, hcw⟩
    · rcases List.mem_cons.mp hc with rfl | hc2
      · exact absurd hcw (by decide)
      · rcases List.mem_cons.mp hc2 with rfl | hc3
        · exact absurd hcw (by decide)
        · obtain ⟨l, hl, w⟩ := ih (Or.inl ⟨c, hc3, hcw⟩)
          exact ⟨l, List.mem_cons_of_mem _ hl, w⟩
    · exact ⟨⟨acc.reverse⟩, List.mem_cons_self _ _, c, List.mem_reverse.mpr hc, hcw⟩
  | case4 c rest acc hguard hnl ih =>
    intro h
    have hred : splitlinesAux (c :: rest) acc = ⟨acc.reverse⟩ :: splitlinesAux rest [] := by
      simp [splitlinesAux, hnl]
    rw [hred]
    rcases h with ⟨c0, hc0, hcw⟩ | ⟨c0, hc0, hcw⟩
    · rcases List.mem_cons.mp hc0 with rfl | hc2
      · exfalso
        rcases Bool.or_eq_true_iff.mp hnl with h1 | h1
        · have h2 := eq_of_beq h1
          subst h2
          cases hcw
        · have h2 := eq_of_beq h1
          subst h2
          cases hcw
      · obtain ⟨l, hl, w⟩ := ih (Or.inl ⟨c0, hc2, hcw⟩)
        exact ⟨l, List.mem_cons_of_mem _ hl, w⟩
    · exact ⟨⟨acc.reverse⟩, List.mem_cons_self _ _, c0, List.mem_reverse.mpr hc0, hcw⟩
  | case5 c rest acc hguard hnl ih =>
    intro h
    have hred : splitlinesAux (c :: rest) acc = splitlinesAux rest (c :: acc) := by
      simp [splitlinesAux, hnl]
    rw [hred]
    rcases h with ⟨c0, hc0, hcw⟩ | ⟨c0, hc0, hcw⟩
    · rcases List.mem_cons.mp hc0 with rfl | hc2
      · exact ih (Or.inr ⟨c0, List.mem_cons_self _ _, hcw⟩)
      · exact ih (Or.inl ⟨c0, hc2, hcw⟩)
    · exact ih (Or.inr ⟨c0, List.mem_cons_of_mem _ hc0, hcw⟩)

/-- Counterexample for C10 as stated: the listing line `a /` produces the
    element `a ` (trailing space retained), so elements are not free of
    surrounding whitespace. -/
theorem list_dirs_whitespace_counterexample :
    list_project_directories ("a /") "" = ["a "] ∧ pyStrip ("a ") ≠ "a " := by
  constructor
  · rfl
  · decide

/-- Claim C10 amended: every element of `list_project_directories` is
    free of slash characters, the result is sorted ascending, and the
    result is empty exactly when the listing output consists of
    whitespace only; elements may however retain edge whitespace exposed
    by stripping trailing slashes. -/
theorem list_dirs_invariants (out err : String) :
    (∀ s ∈ list_project_directories out err, ∀ c ∈ s.data, c ≠ '/') ∧
    List.Sorted (· ≤ ·) (list_project_directories out err) ∧
    (list_project_directories out err = [] ↔ ∀ c ∈ out.data, isPyWs c) := by
  by_cases hres : pyStrip out = ""
  · have hlist : list_project_directories out err = [] := by
      simp [list_project_directories, pyRun, hres]
    rw [hlist]
    refine ⟨(by intro s hs; cases hs), List.sorted_nil, ?_⟩
    constructor
    · intro _
      exact (pyStrip_eq_empty_iff out).mp hres
    · intro _
      rfl
  · have hlist : list_project_directories out err =
        pySorted ((pySplitlines (pyStrip out)).filterMap fun d =>
          if pyStrip d = "" then none
          else some (lastSlashSegment (rstripSlash (pyStrip d)))) := by
      simp [list_project_directories, pyRun, hres]
    refine ⟨?_, ?_, ?_⟩
    · intro s hs c hc
      rw [hlist, mem_pySorted] at hs
      obtain ⟨d, hd, hsome⟩ := List.mem_filterMap.mp hs
      by_cases hde : pyStrip d = ""
      · rw [if_pos hde] at hsome
        cases hsome
      · rw [if_neg hde] at hsome
        injection hsome with hh
        subst hh
        exact lastSlashSegment_no_slash _ c hc
    · rw [hlist]
      exact pySorted_sorted _
    · rw [hlist]
      constructor
      · intro hnil
        exfalso
        obtain ⟨c0, hc0mem, hc0⟩ := exists_nonws_of_strip_ne_empty hres
        obtain ⟨line, hline, c1, hc1mem, hc1⟩ :=
          splitlinesAux_exists_nonws (pyStrip out).data [] (Or.inl ⟨c0, hc0mem, hc0⟩)
        have hlne : pyStrip line ≠ "" := by
          intro he
          have hw := (pyStrip_eq_empty_iff line).mp he c1 hc1mem
          rw [hc1] at hw
          cases hw
        have hmem2 : lastSlashSegment (rstripSlash (pyStrip line)) ∈
            (pySplitlines (pyStrip out)).filterMap fun d =>
              if pyStrip d = "" then none
              else some (lastSlashSegment (rstripSlash (pyStrip d))) := by
          apply List.mem_filterMap.mpr
          exact ⟨line, hline, by rw [if_neg hlne]⟩
        rw [pySorted_eq_nil_iff] at hnil
        rw [hnil] at hmem2
        cases hmem2
      · intro hall
        exact absurd ((pyStrip_eq_empty_iff out).mpr hall) hres

set_option maxRecDepth 100000 in
/-- Witness for amended C10: a single-directory listing is slash-free and
    sorted; an all-whitespace listing is empty. -/
theorem list_dirs_invariants_witness :
    (∀ c ∈ ("sub01" : String).data, c ≠ '/') ∧
    List.Sorted (· ≤ ·) (list_project_directories ("~/projects/sub01/") "") ∧
    list_project_directories ("  \n ") "" = [] := by
  have h1 := list_dirs_invariants ("~/projects/sub01/") ""
  have h2 := list_dirs_invariants ("  \n ") ""
  refine ⟨?_, h1.2.1, h2.2.2.mpr (by decide)⟩
  intro c hc
  exact h1.1 ("sub01") (by decide) c hc
